import Mathlib

/-!
Verification development for the UICP repository (block extractor, validator,
definitions caches, pipeline orchestrator, tools).

The definitions below are a shallow embedding of the TypeScript sources:
  - packages/parser/src/parser.ts       (extractUICPBlocks, renderUICPBlock,
                                         parseUICPContent, parseUICPContentSync)
  - packages/parser/src/validator.ts    (validateUICPBlock)
  - packages/parser/src/definitions-loader.ts (loadDefinitionsWithCache)
  - tools cache module                  (getCached, setCached, clearCache)
  - tools functions module              (createUIComponent)

JavaScript runtime values are modelled by `JsValue`; the host's `JSON.parse`
builtin is modelled by `jsonParseL` (recursive-descent over the JSON grammar;
numbers are modelled by their signed digit string read as an integer, which
preserves zero-ness and hence JS truthiness). Strings are processed as
`List Char`; JS string positions coincide with these indices on the inputs
considered. Time is passed explicitly (`now : Int` in milliseconds) in place
of `Date.now()`.
-/

/-- A brace character, `\x7b`. -/
def lbraceC : Char := Char.ofNat 123

/-- A closing brace character, `\x7d`. -/
def rbraceC : Char := Char.ofNat 125

/-- The backtick character. -/
def btick : Char := Char.ofNat 96

/-- JavaScript `\s` whitespace (the members relevant to the sources:
ASCII whitespace plus NBSP and BOM). -/
def isJsWs (c : Char) : Bool :=
  c = ' ' || c = '\t' || c = '\n' || c = '\r' ||
  c = Char.ofNat 11 || c = Char.ofNat 12 || c = Char.ofNat 160 || c = Char.ofNat 0xfeff

/-- JSON grammar whitespace (accepted between tokens by `JSON.parse`). -/
def isJsonWs (c : Char) : Bool :=
  c = ' ' || c = '\t' || c = '\n' || c = '\r'

/-- Model of a JavaScript runtime value (the result of `JSON.parse`, plus
`undefined`, which `JSON.parse` never produces but JS code can). Numbers are
modelled as integers formed from the digit string; this preserves zero-ness
(and hence truthiness) and equality on the integral values the sources use. -/
inductive JsValue where
  | jundefined
  | jnull
  | jbool (b : Bool)
  | jnum (n : Int)
  | jstr (s : String)
  | jarr (elems : List JsValue)
  | jobj (fields : List (String × JsValue))

/-- Member access `v[key]`, `none` meaning JS `undefined`/absent. Fields of a
parsed object have unique keys by construction (`objInsert`). -/
def getMember (v : JsValue) (key : String) : Option JsValue :=
  match v with
  | .jobj fields => (fields.find? (fun f => f.1 == key)).map (fun f => f.2)
  | _ => none

/-- JS truthiness of a possibly-absent value (`undefined` and absent are falsy). -/
def truthyOpt (v : Option JsValue) : Bool :=
  match v with
  | none => false
  | some .jundefined => false
  | some .jnull => false
  | some (.jbool b) => b
  | some (.jnum n) => !(n == 0)
  | some (.jstr s) => !(s == "")
  | some (.jarr _) => true
  | some (.jobj _) => true

/-- `v[key]`, with JS `undefined` for absent members. -/
def memberOrUndef (v : JsValue) (key : String) : JsValue :=
  (getMember v key).getD .jundefined

/-- Does `key in v` hold (for an object `v`)? `in` on a non-object throws in
JS; the sources only reach this with object payloads, modelled as `false`. -/
def hasMember (v : JsValue) (key : String) : Bool :=
  match v with
  | .jobj fields => fields.any (fun f => f.1 == key)
  | _ => false

/-- `Object.entries(v)` for the values the sources pass (objects; anything
else contributes no entries, as `Object.entries` on primitives yields `[]`). -/
def jsEntries (v : JsValue) : List (String × JsValue) :=
  match v with
  | .jobj fields => fields
  | _ => []

/-- The `typeof`-based runtime category used by the validator:
`Array.isArray(value) ? 'array' : typeof value`. -/
def jsTypeCategory (v : JsValue) : String :=
  match v with
  | .jundefined => "undefined"
  | .jnull => "object"
  | .jbool _ => "boolean"
  | .jnum _ => "number"
  | .jstr _ => "string"
  | .jarr _ => "array"
  | .jobj _ => "object"

/-- JS string coercion as used in template literals (`Symbol.toPrimitive`
default behaviour); fuel bounds nesting of arrays. -/
def jsToStringFuel : Nat → JsValue → String
  | _, .jundefined => "undefined"
  | _, .jnull => "null"
  | _, .jbool b => if b then "true" else "false"
  | _, .jnum n => toString n
  | _, .jstr s => s
  | 0, .jarr _ => ""
  | 0, .jobj _ => "[object Object]"
  | fuel+1, .jarr elems =>
      String.intercalate ","
        (elems.map (fun e =>
          match e with
          | .jundefined => ""
          | .jnull => ""
          | x => jsToStringFuel fuel x))
  | _+1, .jobj _ => "[object Object]"

/-- JS string coercion (template-literal interpolation). -/
def jsToString (v : JsValue) : String := jsToStringFuel 64 v

/-- Value of a hexadecimal digit. -/
def hexVal (c : Char) : Option Nat :=
  if c.isDigit then some (c.toNat - 48)
  else if 'a' ≤ c ∧ c ≤ 'f' then some (c.toNat - 87)
  else if 'A' ≤ c ∧ c ≤ 'F' then some (c.toNat - 55)
  else none

/-- Natural number denoted by a digit string. -/
def digitsToNat (ds : List Char) : Nat :=
  ds.foldl (fun a c => a * 10 + (c.toNat - 48)) 0

/-- JSON string body parser (called after the opening quote): returns the
decoded string and the input after the closing quote. Escapes follow the JSON
grammar; unescaped control characters are rejected, as in `JSON.parse`. -/
def parseJsonStr : List Char → Option (String × List Char)
  | [] => none
  | c :: rest =>
    if c = '\"' then some ("", rest)
    else if c = '\\' then
      match rest with
      | [] => none
      | e :: rest2 =>
        if e = 'u' then
          match rest2 with
          | h1 :: h2 :: h3 :: h4 :: rest3 =>
            match hexVal h1, hexVal h2, hexVal h3, hexVal h4 with
            | some a, some b, some c2, some d =>
              (parseJsonStr rest3).map
                (fun r => (String.mk (Char.ofNat (((a*16+b)*16+c2)*16+d) :: r.1.toList), r.2))
            | _, _, _, _ => none
          | _ => none
        else
          let dec : Option Char :=
            if e = '\"' then some '\"'
            else if e = '\\' then some '\\'
            else if e = '/' then some '/'
            else if e = 'b' then some (Char.ofNat 8)
            else if e = 'f' then some (Char.ofNat 12)
            else if e = 'n' then some '\n'
            else if e = 'r' then some '\r'
            else if e = 't' then some '\t'
            else none
          match dec with
          | none => none
          | some ch => (parseJsonStr rest2).map (fun r => (String.mk (ch :: r.1.toList), r.2))
    else if c.toNat < 32 then none
    else (parseJsonStr rest).map (fun r => (String.mk (c :: r.1.toList), r.2))

/-- JSON number parser. The returned integer is the signed concatenation of
the integral and fractional digit strings (exponents are consumed and
discarded); this abstraction preserves zero-ness, which is all the sources
depend on for numbers. -/
def parseJsonNum (cs : List Char) : Option (Int × List Char) :=
  let signedTail : Bool × List Char :=
    match cs with
    | c :: t => if c = '-' then (true, t) else (false, cs)
    | [] => (false, cs)
  let neg := signedTail.1
  let cs1 := signedTail.2
  let intd := cs1.takeWhile Char.isDigit
  if intd.isEmpty then none
  else
    let cs2 := cs1.drop intd.length
    let hasDot : Bool := match cs2 with | c :: _ => c = '.' | [] => false
    let fracd := if hasDot then (cs2.drop 1).takeWhile Char.isDigit else []
    if hasDot && fracd.isEmpty then none
    else
      let cs3 := if hasDot then (cs2.drop 1).drop fracd.length else cs2
      let hasExp : Bool := match cs3 with | c :: _ => c = 'e' || c = 'E' | [] => false
      let res : Option (List Char) :=
        if hasExp then
          let cs4 := cs3.drop 1
          let cs5 : List Char :=
            match cs4 with
            | c :: t => if c = '+' || c = '-' then t else cs4
            | [] => cs4
          let expd := cs5.takeWhile Char.isDigit
          if expd.isEmpty then none else some (cs5.drop expd.length)
        else some cs3
      match res with
      | none => none
      | some rest =>
        let mag : Int := Int.ofNat (digitsToNat (intd ++ fracd))
        some (if neg then -mag else mag, rest)

/-- Insert a member into an object under construction: `JSON.parse` keeps the
first occurrence's position but the last occurrence's value for duplicate keys. -/
def objInsert (fields : List (String × JsValue)) (key : String) (v : JsValue) :
    List (String × JsValue) :=
  match fields with
  | [] => [(key, v)]
  | f :: rest => if f.1 == key then (key, v) :: rest else f :: objInsert rest key v

mutual

/-- JSON value parser (fuel-bounded recursive descent over the JSON grammar). -/
def parseJsonVal : Nat → List Char → Option (JsValue × List Char)
  | 0, _ => none
  | fuel+1, cs =>
    match cs.dropWhile isJsonWs with
    | [] => none
    | c :: rest =>
      if c = 'n' then
        match rest with
        | 'u' :: 'l' :: 'l' :: r => some (.jnull, r)
        | _ => none
      else if c = 't' then
        match rest with
        | 'r' :: 'u' :: 'e' :: r => some (.jbool true, r)
        | _ => none
      else if c = 'f' then
        match rest with
        | 'a' :: 'l' :: 's' :: 'e' :: r => some (.jbool false, r)
        | _ => none
      else if c = '\"' then (parseJsonStr rest).map (fun r => (.jstr r.1, r.2))
      else if c = lbraceC then parseJsonMembers fuel rest [] true
      else if c = '[' then parseJsonElems fuel rest [] true
      else (parseJsonNum (c :: rest)).map (fun r => (.jnum r.1, r.2))

/-- Object member list parser (after the opening brace; `allowEnd` is true
when a closing brace may come next, i.e. before the first member). -/
def parseJsonMembers : Nat → List Char → List (String × JsValue) → Bool →
    Option (JsValue × List Char)
  | 0, _, _, _ => none
  | fuel+1, cs, acc, allowEnd =>
    match cs.dropWhile isJsonWs with
    | [] => none
    | c :: rest =>
      if allowEnd && c = rbraceC then some (.jobj acc, rest)
      else if c = '\"' then
        match parseJsonStr rest with
        | none => none
        | some (key, r1) =>
          match r1.dropWhile isJsonWs with
          | ':' :: r2 =>
            match parseJsonVal fuel r2 with
            | none => none
            | some (v, r3) =>
              match r3.dropWhile isJsonWs with
              | ',' :: r4 => parseJsonMembers fuel r4 (objInsert acc key v) false
              | c2 :: r4 =>
                if c2 = rbraceC then some (.jobj (objInsert acc key v), r4) else none
              | [] => none
          | _ => none
      else none

/-- Array element list parser (after the opening bracket). -/
def parseJsonElems : Nat → List Char → List JsValue → Bool →
    Option (JsValue × List Char)
  | 0, _, _, _ => none
  | fuel+1, cs, acc, allowEnd =>
    match cs.dropWhile isJsonWs with
    | [] => none
    | c :: rest =>
      if allowEnd && c = ']' then some (.jarr acc, rest)
      else
        match parseJsonVal fuel (c :: rest) with
        | none => none
        | some (v, r3) =>
          match r3.dropWhile isJsonWs with
          | ',' :: r4 => parseJsonElems fuel r4 (acc ++ [v]) false
          | ']' :: r4 => some (.jarr (acc ++ [v]), r4)
          | _ => none

end

/-- Model of the host `JSON.parse` builtin: parse one JSON value and require
only whitespace to remain. `none` models a thrown `SyntaxError`. -/
def jsonParseL (cs : List Char) : Option JsValue :=
  match parseJsonVal (cs.length * 2 + 8) cs with
  | none => none
  | some (v, rest) => if (rest.dropWhile isJsonWs).isEmpty then some v else none

/-- `JSON.parse` on a Lean string. -/
def jsonParse (s : String) : Option JsValue := jsonParseL s.toList

/-- One field of a component's declared inputs (tools/types `InputSchema`). -/
structure InputSchema where
  type : String
  description : String
  required : Bool
  default : Option JsValue := none
  enum : Option (List String) := none

/-- A component definition (tools/types `ComponentDefinition`); `inputs` is a
JS object, modelled as an entry list in insertion order. -/
structure ComponentDefinition where
  uid : String
  type : String
  description : String
  componentPath : String
  inputs : List (String × InputSchema)
  example : Option JsValue := none

/-- A definitions document (tools/types `Definitions`). -/
structure Definitions where
  version : String
  components : List ComponentDefinition

/-- A UICP block as flowed through the pipeline: `extractUICPBlocks` pushes
the raw `JSON.parse` result, of which only the `uid` and `data` members are
ever consumed downstream; both are arbitrary runtime values. -/
structure UICPBlock where
  uid : JsValue
  data : JsValue

/-- View of an accepted parsed payload as a `UICPBlock`. -/
def blockOfJson (v : JsValue) : UICPBlock :=
  { uid := memberOrUndef v "uid", data := memberOrUndef v "data" }

/-- Result of `validateUICPBlock`. -/
structure ValidationResult where
  valid : Bool
  errors : List String

/-- JS strict equality `c.uid === u` between a definition's string uid and a
block's runtime uid value. -/
def strictEqStrJs (s : String) (v : JsValue) : Bool :=
  match v with
  | .jstr t => s == t
  | _ => false

/-- The uid lookup `definitions.components.find((c) => c.uid === uid)` shared
by the validator and the orchestrator's renderer pre-load. `Array.find`
returns the first matching element. -/
def findByUid (components : List ComponentDefinition) (uid : JsValue) :
    Option ComponentDefinition :=
  components.find? (fun c => strictEqStrJs c.uid uid)

/-- The uid lookup with a string parameter, as in `createUIComponent`. -/
def findByUidStr (components : List ComponentDefinition) (uid : String) :
    Option ComponentDefinition :=
  components.find? (fun c => c.uid == uid)

/-- Lookup `component.inputs[key]` (JS object property access). -/
def lookupSchema (inputs : List (String × InputSchema)) (key : String) :
    Option InputSchema :=
  (inputs.find? (fun f => f.1 == key)).map (fun f => f.2)

/-- `Array.includes` (SameValueZero) of a runtime value in a string array. -/
def jsIncludes (l : List String) (v : JsValue) : Bool :=
  l.any (fun s => strictEqStrJs s v)

/-- JS strict equality `value === null` (null is a primitive, so this is a
constructor check). -/
def isNullJs (v : JsValue) : Bool :=
  match v with
  | .jnull => true
  | _ => false

/-- JS strict equality `value === undefined`. -/
def isUndefJs (v : JsValue) : Bool :=
  match v with
  | .jundefined => true
  | _ => false

/-- The errors contributed by one declared input while checking required
fields: `schema.required && !(key in block.data)`. -/
def errsOfInput (data : JsValue) (kv : String × InputSchema) : List String :=
  if kv.2.required && !(hasMember data kv.1) then
    ["Missing required field: " ++ kv.1]
  else []

/-- The errors contributed by one entry of `block.data`: fields not declared
in the schema are silently ignored; a present `enum` constraint failing
membership adds an error; a declared type differing from the runtime category
adds an error unless the value is `null`/`undefined`. -/
def errsOfDataEntry (inputs : List (String × InputSchema)) (kv : String × JsValue) :
    List String :=
  match lookupSchema inputs kv.1 with
  | none => []
  | some schema =>
    (match schema.enum with
     | some l =>
       if !(jsIncludes l kv.2) then
         ["Invalid value for " ++ kv.1 ++ ": must be one of " ++ String.intercalate ", " l]
       else []
     | none => []) ++
    (let actualType := jsTypeCategory kv.2
     if schema.type != actualType && !(isNullJs kv.2) && !(isUndefJs kv.2) then
       ["Invalid type for " ++ kv.1 ++ ": expected " ++ schema.type ++ ", got " ++ actualType]
     else [])

/-- `validateUICPBlock(block, definitions)` from validator.ts: unknown uid
short-circuits with a single error; otherwise errors are pushed while
iterating the declared inputs (required-field check) and then the entries of
`block.data` (enum and type checks); `valid` is `errors.length === 0`. -/
def validateUICPBlock (block : UICPBlock) (definitions : Definitions) :
    ValidationResult :=
  match findByUid definitions.components block.uid with
  | none =>
    { valid := false, errors := ["Unknown component UID: " ++ jsToString block.uid] }
  | some component =>
    let errs1 := component.inputs.foldl
      (fun acc kv => acc ++ errsOfInput block.data kv) []
    let errs2 := (jsEntries block.data).foldl
      (fun acc kv => acc ++ errsOfDataEntry component.inputs kv) errs1
    { valid := errs2.isEmpty, errors := errs2 }

/-- The missing-required-field errors for a component, declaratively. -/
def missingFieldErrors (c : ComponentDefinition) (data : JsValue) : List String :=
  c.inputs.flatMap (errsOfInput data)

/-- The enum/type errors over the entries of `block.data`, declaratively. -/
def dataFieldErrors (c : ComponentDefinition) (data : JsValue) : List String :=
  (jsEntries data).flatMap (errsOfDataEntry c.inputs)

/-- The definitions caches map a source locator string to a cache entry
`(data, timestamp)` (`Map` in both packages, modelled as an entry list in
insertion order with unique keys maintained by `setEntry`). -/
abbrev DefsCache : Type := List (String × Definitions × Int)

/-- `Map.get`. -/
def lookupEntry : DefsCache → String → Option (Definitions × Int)
  | [], _ => none
  | (k, d, ts) :: rest, u => if k = u then some (d, ts) else lookupEntry rest u

/-- `Map.set`: update in place when the key is present, append otherwise. -/
def setEntry : DefsCache → String → Definitions → Int → DefsCache
  | [], k, d, ts => [(k, d, ts)]
  | e :: rest, k, d, ts =>
    if e.1 = k then (k, d, ts) :: rest else e :: setEntry rest k d ts

/-- `Map.delete`. -/
def eraseEntry (cache : DefsCache) (k : String) : DefsCache :=
  cache.filter (fun e => !(e.1 == k))

/-- A definitions source: an in-memory object or a locator string
(`string | Definitions` in the sources). -/
inductive DefsSource where
  | obj (d : Definitions)
  | uri (s : String)

/-- `loadDefinitionsWithCache` from definitions-loader.ts. The ambient
`Date.now()` is the explicit `now`; the outcome of the underlying
`loadDefinitions` fetch/read is the explicit `loaded`. Returns the
definitions, the cache after the call, and whether a fresh load occurred.
An object source is returned directly and never cached; a hit strictly
younger than `ttl` is returned without loading; otherwise the result of a
fresh load overwrites the entry with timestamp `now`. -/
def loadDefinitionsWithCache (source : DefsSource) (ttl : Int)
    (cache : DefsCache) (now : Int) (loaded : Definitions) :
    Definitions × DefsCache × Bool :=
  match source with
  | .obj d => (d, cache, false)
  | .uri s =>
    match lookupEntry cache s with
    | some (d, ts) =>
      if now - ts < ttl then (d, cache, false)
      else (loaded, setEntry cache s loaded now, true)
    | none => (loaded, setEntry cache s loaded now, true)

/-- `getCached(uri, ttl)` from the tools cache module: absent entries yield
`null`; an entry older than `ttl` is deleted from the cache and yields
`null`; otherwise the cached data is returned. Returns the value and the
cache after the call (the read mutates the cache in the stale case). -/
def getCached (uri : String) (ttl : Int) (cache : DefsCache) (now : Int) :
    Option Definitions × DefsCache :=
  match lookupEntry cache uri with
  | none => (none, cache)
  | some (d, ts) =>
    if now - ts > ttl then (none, eraseEntry cache uri)
    else (some d, cache)

/-- `setCached(uri, data)` from the tools cache module. -/
def setCached (uri : String) (data : Definitions) (cache : DefsCache)
    (now : Int) : DefsCache :=
  setEntry cache uri data now

/-- `clearCache(uri?)` from the tools cache module, with a key. -/
def clearCache (cache : DefsCache) (uri : String) : DefsCache :=
  eraseEntry cache uri

/-- First index at which `pat` occurs as a contiguous substring of `cs`
(JS `String.indexOf` / leftmost regex literal match). -/
def findSub : List Char → List Char → Option Nat
  | cs, pat =>
    if pat.isPrefixOf cs then some 0
    else
      match cs with
      | [] => none
      | _ :: t => (findSub t pat).map (fun i => i + 1)

/-- JS `String.prototype.trimEnd` (drop trailing `\s` characters). -/
def trimEndL (cs : List Char) : List Char :=
  (cs.reverse.dropWhile isJsWs).reverse

/-- JS `String.prototype.trim` (drop `\s` characters at both ends). -/
def trimBoth (cs : List Char) : List Char :=
  trimEndL (cs.dropWhile isJsWs)

/-- Index of the last occurrence of `c` in `cs`. -/
def lastIdxOf : List Char → Char → Option Nat
  | [], _ => none
  | a :: t, c =>
    match lastIdxOf t c with
    | some j => some (j + 1)
    | none => if a = c then some 0 else none

/-- JS `String.prototype.replace` with a plain-string pattern: replace the
first occurrence of `pat` (the replacement contains no `$` patterns in the
sources). -/
def replaceFirstL (cs pat repl : List Char) : List Char :=
  match findSub cs pat with
  | none => cs
  | some i => cs.take i ++ repl ++ cs.drop (i + pat.length)

/-- The opening tag literal of the block-marker regex. -/
def uicpOpenL : List Char := "```uicp".toList

/-- The closing fence literal. -/
def closeFenceL : List Char := "```".toList

/-- Attempt to complete a match of the regex `anchored at `start`, where the
literal opening tag has already been found: backtracking of the `\s*\n`
between the tag and the payload consumes the maximal whitespace run up to and
including its last newline (no newline in the run means no match at this
position), and the non-greedy body extends to the first closing fence.
Returns `(start, length of the full match, body characters)`. -/
def tryCompleteAt (cs : List Char) (start : Nat) : Option (Nat × Nat × List Char) :=
  let afterOpen := cs.drop (start + 7)
  let run := afterOpen.takeWhile isJsWs
  match lastIdxOf run '\n' with
  | none => none
  | some k =>
    let body := cs.drop (start + 7 + k + 1)
    match findSub body closeFenceL with
    | none => none
    | some m => some (start, 7 + k + 1 + m + 3, body.take m)

/-- Leftmost match of the block regex at or after position `pos` (the
`g`-flag scan of `uicpRegex.exec`): candidate positions are occurrences of
the literal opening tag; a candidate that cannot be completed is skipped and
the scan resumes one character later, as regex backtracking does. -/
def findUicpFrom : Nat → List Char → Nat → Option (Nat × Nat × List Char)
  | 0, _, _ => none
  | fuel+1, cs, pos =>
    match findSub (cs.drop pos) uicpOpenL with
    | none => none
    | some j =>
      match tryCompleteAt cs (pos + j) with
      | some r => some r
      | none => findUicpFrom fuel cs (pos + j + 1)

/-- The placeholder token for the block at index `n`. -/
def mkPlaceholder (n : Nat) : List Char :=
  ("__UICP_BLOCK_" ++ toString n ++ "__").toList

/-- The `while ((match = uicpRegex.exec(content)) !== null)` loop of
`extractUICPBlocks`: scan the original content left to right; for each
complete fenced region, trim and `JSON.parse` the interior; a payload whose
`uid` and `data` members are both truthy is pushed and its region replaced
(first occurrence, in the progressively rewritten copy) by a positional
placeholder; otherwise the region is left as is. -/
def extractLoop : Nat → List Char → Nat → List UICPBlock → List Char →
    List UICPBlock × List Char
  | 0, _, _, blocks, acc => (blocks, acc)
  | fuel+1, cs, pos, blocks, acc =>
    match findUicpFrom (cs.length + 1) cs pos with
    | none => (blocks, acc)
    | some (start, len, inner) =>
      let jsonContent := trimBoth inner
      match jsonParseL jsonContent with
      | none => extractLoop fuel cs (start + len) blocks acc
      | some parsed =>
        if truthyOpt (getMember parsed "uid") && truthyOpt (getMember parsed "data") then
          let ph := mkPlaceholder blocks.length
          let matched := (cs.drop start).take len
          extractLoop fuel cs (start + len)
            (blocks ++ [blockOfJson parsed]) (replaceFirstL acc matched ph)
        else extractLoop fuel cs (start + len) blocks acc

/-- The trailing incomplete-block handling of `extractUICPBlocks`: the first
occurrence of the opening tag remaining after placeholder substitution cuts
the text there, with trailing whitespace trimmed. -/
def truncateIncomplete (cs : List Char) : List Char :=
  match findSub cs uicpOpenL with
  | some i => trimEndL (cs.take i)
  | none => cs

/-- `extractUICPBlocks` on character lists. -/
def extractUICPBlocksL (cs : List Char) : List UICPBlock × List Char :=
  let r := extractLoop (cs.length + 1) cs 0 [] cs
  (r.1, truncateIncomplete r.2)

/-- `extractUICPBlocks(content)` from parser.ts: returns the accepted blocks
and `contentWithPlaceholders`. -/
def extractUICPBlocks (content : String) : List UICPBlock × String :=
  let r := extractUICPBlocksL content.toList
  (r.1, String.mk r.2)

/-- `hasUICPBlocks(content)` from parser.ts. -/
def hasUICPBlocks (content : String) : Bool :=
  (findSub content.toList uicpOpenL).isSome

/-- Modelled from the spec: the Component Registry (its module, loader.ts, is
not among the provided sources; §4.4 of the spec gives the contract). It is
a process-wide mapping from uid to renderer capability; only whether a uid is
registered is observable in the artifacts below, so the registry state is
modelled as the list of registered uids. `getComponent` looks up a runtime
uid value in the string-keyed registry. -/
abbrev Registry : Type := List String

/-- Modelled from the spec: `getComponent(uid)` — `get(uid) -> renderer|absent`
(§4.4), observable here as registered-or-not. -/
def getComponent (registry : Registry) (uid : JsValue) : Bool :=
  match uid with
  | .jstr s => registry.contains s
  | _ => false

/-- Modelled from the spec: the registration side effect of
`loadComponent(uid, relativePath, basePath)` (§4.4) — the renderer is
registered under `uid`; registration is its only effect visible to
reassembly. -/
def registerUid (registry : Registry) (uid : JsValue) : Registry :=
  match uid with
  | .jstr s => registry ++ [s]
  | _ => registry

/-- A rendered artifact produced by `renderUICPBlock`: a structured error box
for an invalid block, a structured warning for a missing renderer, or the
resolved component populated with the block's data (the renderer itself is
resolved from the registry by uid). -/
inductive Rendered where
  | errorBox (key : String) (errors : List String)
  | missingRenderer (key : String) (uid : JsValue)
  | component (key : String) (uid : JsValue) (data : JsValue)

/-- `renderUICPBlock(block, definitions, key)` from parser.ts: an invalid
block renders as an error artifact carrying the validation errors; a valid
block with no registered renderer renders as a missing-renderer artifact;
otherwise the resolved component is rendered with `{key, ...block.data}`. -/
def renderUICPBlock (block : UICPBlock) (definitions : Definitions)
    (registry : Registry) (key : String) : Rendered :=
  let vr := validateUICPBlock block definitions
  if !vr.valid then .errorBox key vr.errors
  else if !(getComponent registry block.uid) then .missingRenderer key block.uid
  else .component key block.uid block.data

/-- One segment of `ParsedContent[]`: `{type: 'text'|'component', content, key}`. -/
inductive Segment where
  | text (content : String) (key : String)
  | component (content : Rendered) (key : String)

/-- The literal prefix of the placeholder pattern `__UICP_BLOCK_(\d+)__`. -/
def phTagL : List Char := "__UICP_BLOCK_".toList

/-- Leftmost match of the placeholder regex at or after `pos`: the literal
tag, then a nonempty digit run, then two underscores (the greedy `\d+`
backtracks only to the full run, since a shorter run is followed by a
digit, not an underscore). Returns `(start, total length, numeric value)`. -/
def findPlaceholder : Nat → List Char → Nat → Option (Nat × Nat × Nat)
  | 0, _, _ => none
  | fuel+1, cs, pos =>
    match findSub (cs.drop pos) phTagL with
    | none => none
    | some j =>
      let start := pos + j
      let ds := (cs.drop (start + 13)).takeWhile Char.isDigit
      if ds.length != 0 && ['_', '_'].isPrefixOf (cs.drop (start + 13 + ds.length)) then
        some (start, 13 + ds.length + 2, digitsToNat ds)
      else findPlaceholder fuel cs (start + 1)

/-- `content.split(/(__UICP_BLOCK_\d+__)/)`: alternating non-matching spans
and captured placeholder matches, in document order (empty spans included,
as JS `split` produces them). -/
def splitCaptureL : Nat → List Char → List (List Char)
  | 0, cs => [cs]
  | fuel+1, cs =>
    match findPlaceholder (cs.length + 1) cs 0 with
    | none => [cs]
    | some (start, len, _) =>
      cs.take start :: (cs.drop start).take len ::
        splitCaptureL fuel (cs.drop (start + len))

/-- `part.match(/__UICP_BLOCK_(\d+)__/)` followed by `parseInt` of the
capture: the numeric index of the first placeholder occurring in `part`. -/
def placeholderIdxL (part : List Char) : Option Nat :=
  (findPlaceholder (part.length + 1) part 0).map (fun r => r.2.2)

/-- Key of a component segment. -/
def componentKey (n : Nat) : String := "component-" ++ toString n

/-- Key of a text segment at part index `idx`. -/
def textKey (idx : Nat) : String := "text-" ++ toString idx

/-- The segments contributed by one split part in the shared reassembly loop:
a part containing a placeholder renders block `n` in place when `blocks[n]`
exists and contributes nothing otherwise; any other part becomes a text
segment when nonempty after trimming. -/
def segmentsOfPart (blocks : List UICPBlock) (definitions : Definitions)
    (registry : Registry) (idx : Nat) (part : List Char) : List Segment :=
  match placeholderIdxL part with
  | some n =>
    match blocks[n]? with
    | some b =>
      [.component (renderUICPBlock b definitions registry (componentKey n)) (componentKey n)]
    | none => []
  | none =>
    if trimBoth part ≠ [] then [.text (String.mk part) (textKey idx)] else []

/-- The shared reassembly of both parser variants: split the
placeholder-substituted text on the placeholder pattern and push each part's
segments in order (`parts.forEach((part, index) => ...)`). -/
def reassemble (blocks : List UICPBlock) (definitions : Definitions)
    (registry : Registry) (cwp : List Char) : List Segment :=
  ((splitCaptureL (cwp.length + 1) cwp).enum).foldl
    (fun acc p => acc ++ segmentsOfPart blocks definitions registry p.1 p.2) []

/-- `parseUICPContentSync(content, definitions)` from parser.ts: extraction
followed by reassembly against pre-registered renderers; with no accepted
blocks the original content is returned as a single text segment. -/
def parseUICPContentSync (content : String) (definitions : Definitions)
    (registry : Registry) : List Segment :=
  let r := extractUICPBlocksL content.toList
  if r.1.length == 0 then [.text content "text-0"]
  else reassemble r.1 definitions registry r.2

/-- The renderer pre-load pass of `parseUICPContent`: for every block whose
uid resolves to a component definition and is not yet registered, the
dynamic load registers it. The `Promise.all` fan-out is modelled as the
in-order completion of the loads; the claims below only use it when no load
is triggered, where every interleaving coincides with this fold. -/
def preloadRegistry (blocks : List UICPBlock) (definitions : Definitions)
    (registry : Registry) : Registry :=
  blocks.foldl
    (fun reg b =>
      match findByUid definitions.components b.uid with
      | some _ => if !(getComponent reg b.uid) then registerUid reg b.uid else reg
      | none => reg)
    registry

/-- `parseUICPContent(content, config)` from parser.ts for a config whose
definitions source is an in-memory object (`loadDefinitionsWithCache` is the
identity on object sources, see `loadDefinitionsWithCache`): extraction, the
early return on zero blocks, renderer pre-loading, then the shared
reassembly. -/
def parseUICPContent (content : String) (configDefinitions : Definitions)
    (registry : Registry) : List Segment :=
  let definitions := configDefinitions
  let r := extractUICPBlocksL content.toList
  if r.1.length == 0 then [.text content "text-0"]
  else
    let registry1 := preloadRegistry r.1 definitions registry
    reassemble r.1 definitions registry1 r.2

/-- Two-space indentation at nesting level `lvl` (for `JSON.stringify(v, null, 2)`). -/
def indent2 (lvl : Nat) : String := String.mk (List.replicate (lvl * 2) ' ')

/-- JSON string literal quoting as produced by `JSON.stringify`. -/
def quoteJson (s : String) : String :=
  let esc := s.toList.flatMap (fun c =>
    if c = '\"' then ['\\', '\"']
    else if c = '\\' then ['\\', '\\']
    else if c = '\n' then ['\\', 'n']
    else if c = '\r' then ['\\', 'r']
    else if c = '\t' then ['\\', 't']
    else [c])
  "\"" ++ String.mk esc ++ "\""

/-- `JSON.stringify(v, null, 2)` at nesting level `lvl`; `none` is the
`undefined` result (an `undefined` member is omitted from objects and
rendered `null` inside arrays). -/
def jsonStringifyFuel : Nat → Nat → JsValue → Option String
  | _, _, .jundefined => none
  | _, _, .jnull => some "null"
  | _, _, .jbool b => some (if b then "true" else "false")
  | _, _, .jnum n => some (toString n)
  | _, _, .jstr s => some (quoteJson s)
  | 0, _, .jarr _ => none
  | 0, _, .jobj _ => none
  | fuel+1, lvl, .jarr xs =>
    if xs.isEmpty then some "[]"
    else
      let items := xs.map (fun v => (jsonStringifyFuel fuel (lvl + 1) v).getD "null")
      some ("[\n" ++
        String.intercalate ",\n" (items.map (fun it => indent2 (lvl + 1) ++ it)) ++
        "\n" ++ indent2 lvl ++ "]")
  | fuel+1, lvl, .jobj fs =>
    let lines := fs.filterMap (fun f =>
      (jsonStringifyFuel fuel (lvl + 1) f.2).map
        (fun sv => indent2 (lvl + 1) ++ quoteJson f.1 ++ ": " ++ sv))
    if lines.isEmpty then some (String.mk [lbraceC, rbraceC])
    else
      some (String.mk [lbraceC] ++ "\n" ++ String.intercalate ",\n" lines ++
        "\n" ++ indent2 lvl ++ String.mk [rbraceC])

/-- `JSON.stringify(v, null, 2)` (top level). -/
def jsonStringify2 (v : JsValue) : String :=
  (jsonStringifyFuel 64 0 v).getD "undefined"

/-- Parameters of `createUIComponent` (`CreateUIComponentParams`): the zod
schema guarantees a string `uid` and a record `data`. -/
structure CreateUIComponentParams where
  uid : String
  data : List (String × JsValue)

/-- Result of `createUIComponent` (`CreateUIComponentResult`); absent
optional members are `none`. -/
structure CreateUIComponentResult where
  success : Bool
  message : Option String := none
  uicp_block : Option String := none
  error : Option String := none
  missing_fields : Option (List String) := none
  component_schema : Option (List (String × InputSchema)) := none
  available_components : Option (List String) := none
  instructions : Option (String × String) := none

/-- `createUIComponent(definitionsUri, params, cacheTtl)` from the tools
functions module: resolve definitions through the cache (`getCached`, loading
and `setCached` on a miss — the load outcome is the explicit `loaded`), look
up the component by uid (`Array.find`, first occurrence), reject unknown uids
listing the available components, collect missing required fields, otherwise
emit the formatted ```uicp block. Returns the result and the cache after the
call. -/
def createUIComponent (definitionsUri : String)
    (params : CreateUIComponentParams) (cacheTtl : Int) (cache : DefsCache)
    (now : Int) (loaded : Definitions) : CreateUIComponentResult × DefsCache :=
  let r0 := getCached definitionsUri cacheTtl cache now
  let definitions := r0.1.getD loaded
  let cache2 :=
    match r0.1 with
    | some _ => r0.2
    | none => setCached definitionsUri loaded r0.2 now
  match findByUidStr definitions.components params.uid with
  | none =>
    ({ success := false,
       error := some ("Unknown component UID: " ++ params.uid),
       available_components := some (definitions.components.map (fun c => c.uid)) },
     cache2)
  | some component =>
    let missingFields := component.inputs.foldl
      (fun acc kv =>
        if kv.2.required && !(params.data.any (fun f => f.1 == kv.1)) then
          acc ++ [kv.1]
        else acc)
      []
    if missingFields.length > 0 then
      ({ success := false,
         error := some "Missing required fields",
         missing_fields := some missingFields,
         component_schema := some component.inputs },
       cache2)
    else
      let uicpBlock : JsValue := .jobj [("uid", .jstr params.uid), ("data", .jobj params.data)]
      let formattedBlock := "```uicp\n" ++ jsonStringify2 uicpBlock ++ "\n```"
      ({ success := true,
         message := some ("Successfully created " ++ component.type ++ " component: " ++ params.uid),
         uicp_block := some formattedBlock,
         instructions := some
           ("Include the uicp_block string directly in your response text",
            "The UICP block will be automatically parsed and rendered as a visual component") },
       cache2)

/-- An empty definitions document (no components). -/
def emptyDefs : Definitions := { version := "1.0", components := [] }

/-- The input schema of the spec's running example: a required string `title`. -/
def titleSchema : InputSchema :=
  { type := "string", description := "Card title", required := true }

/-- The spec's running example component: `uid="Card"` requiring `title`. -/
def cardComponent : ComponentDefinition :=
  { uid := "Card", type := "card", description := "A simple card",
    componentPath := "SimpleCard.tsx", inputs := [("title", titleSchema)] }

/-- A second definition sharing the uid `Card` (for duplicate-uid scenarios). -/
def cardAlt : ComponentDefinition :=
  { uid := "Card", type := "alt-card", description := "Another card",
    componentPath := "AltCard.tsx", inputs := [] }

/-- A component with a different uid. -/
def otherComponent : ComponentDefinition :=
  { uid := "Other", type := "misc", description := "Something else",
    componentPath := "Other.tsx", inputs := [] }

/-- Definitions document of the running example. -/
def cardDefs : Definitions := { version := "1.0.0", components := [cardComponent] }

/-- A definitions document with a duplicated uid: `Card` occurs at positions
1 and 2, with `Other` before both. -/
def dupDefs : Definitions :=
  { version := "1.0.0", components := [otherComponent, cardComponent, cardAlt] }

theorem foldl_append_eq_flatMap {α β : Type} (g : α → List β) :
    ∀ (l : List α) (init : List β),
      l.foldl (fun acc x => acc ++ g x) init = init ++ l.flatMap g
  | [], init => by simp
  | x :: xs, init => by
    simp only [List.foldl_cons, List.flatMap_cons]
    rw [foldl_append_eq_flatMap g xs (init ++ g x), List.append_assoc]

theorem find?_first {α : Type} (p : α → Bool) :
    ∀ (pre : List α) (c : α), (∀ x ∈ pre, p x = false) → p c = true →
      ∀ (suf : List α), (pre ++ c :: suf).find? p = some c
  | [], c, _, hc, suf => by simp [List.find?, hc]
  | x :: pre, c, hpre, hc, suf => by
    have hx : p x = false := hpre x (by simp)
    simp only [List.cons_append, List.find?, hx]
    exact find?_first p pre c (fun y hy => hpre y (by simp [hy])) hc suf

theorem isPrefixOfSelf : ∀ (l : List Char), l.isPrefixOf l = true
  | [] => rfl
  | a :: t => by simp [List.isPrefixOf, isPrefixOfSelf t]

theorem findSub_of_pref {cs pat : List Char} (h : pat.isPrefixOf cs = true) :
    findSub cs pat = some 0 := by
  cases cs <;> simp [findSub, h]

theorem findSub_append_head_notMem (c : Char) (t : List Char) :
    ∀ (l r : List Char), c ∉ l →
      findSub (l ++ r) (c :: t) = (findSub r (c :: t)).map (fun i => i + l.length)
  | [], r, _ => by
    cases h : findSub r (c :: t) <;> simp [h]
  | a :: l, r, hc => by
    simp only [List.mem_cons, not_or] at hc
    have hac : (c == a) = false := beq_eq_false_iff_ne.mpr hc.1
    have hpre : (c :: t).isPrefixOf (a :: (l ++ r)) = false := by
      simp [List.isPrefixOf, hac]
    have ih := findSub_append_head_notMem c t l r hc.2
    have hstep : findSub ((a :: l) ++ r) (c :: t)
        = (findSub (l ++ r) (c :: t)).map (fun i => i + 1) := by
      simp [findSub, hpre]
    rw [hstep, ih, Option.map_map]
    cases findSub r (c :: t) <;> simp [Function.comp, Nat.add_assoc]

theorem lookupEntry_setEntry_self :
    ∀ (cache : DefsCache) (k : String) (d : Definitions) (ts : Int),
      lookupEntry (setEntry cache k d ts) k = some (d, ts)
  | [], k, d, ts => by simp [setEntry, lookupEntry]
  | e :: rest, k, d, ts => by
    by_cases h : e.1 = k
    · simp [setEntry, h, lookupEntry]
    · simp [setEntry, h, lookupEntry, lookupEntry_setEntry_self rest k d ts]

theorem lookupEntry_eraseEntry_self :
    ∀ (cache : DefsCache) (k : String), lookupEntry (eraseEntry cache k) k = none
  | [], _ => rfl
  | (k', d, ts) :: rest, k => by
    have ih := lookupEntry_eraseEntry_self rest k
    simp only [eraseEntry] at ih ⊢
    by_cases h : k' = k
    · have hb : (!(k' == k)) = false := by simp [h]
      simpa [List.filter_cons, hb] using ih
    · have hb : (!(k' == k)) = true := by simp [h]
      simpa [List.filter_cons, hb, lookupEntry, h] using ih

theorem lookupEntry_eraseEntry_ne :
    ∀ (cache : DefsCache) (k u : String), u ≠ k →
      lookupEntry (eraseEntry cache k) u = lookupEntry cache u
  | [], _, _, _ => rfl
  | (k', d, ts) :: rest, k, u, hu => by
    have ih := lookupEntry_eraseEntry_ne rest k u hu
    simp only [eraseEntry] at ih ⊢
    by_cases h : k' = k
    · have hk' : k' ≠ u := fun hh => hu (hh ▸ h)
      have hb : (!(k' == k)) = false := by simp [h]
      simpa [List.filter_cons, hb, lookupEntry, hk'] using ih
    · have hb : (!(k' == k)) = true := by simp [h]
      by_cases h2 : k' = u
      · simp [List.filter_cons, hb, lookupEntry, h2, hu]
      · simpa [List.filter_cons, hb, lookupEntry, h2] using ih

theorem preloadRegistry_of_registered :
    ∀ (blocks : List UICPBlock) (definitions : Definitions) (registry : Registry),
      (∀ b ∈ blocks, getComponent registry b.uid = true) →
      preloadRegistry blocks definitions registry = registry
  | [], _, _, _ => rfl
  | b :: bs, definitions, registry, h => by
    have hb : getComponent registry b.uid = true := h b (by simp)
    have hstep :
        (match findByUid definitions.components b.uid with
          | some _ => if !(getComponent registry b.uid) then registerUid registry b.uid else registry
          | none => registry) = registry := by
      cases findByUid definitions.components b.uid <;> simp [hb]
    simp only [preloadRegistry, List.foldl_cons] at *
    rw [hstep]
    exact preloadRegistry_of_registered bs definitions registry (fun x hx => h x (by simp [hx]))

/-- `loadDefinitionsWithCache` is the identity on in-memory object sources
(never cached), which justifies `parseUICPContent` above taking resolved
definitions for an object-source config. -/
theorem loadDefinitionsWithCache_obj (d : Definitions) (ttl : Int)
    (cache : DefsCache) (now : Int) (loaded : Definitions) :
    loadDefinitionsWithCache (.obj d) ttl cache now loaded = (d, cache, false) := rfl

theorem splitCaptureL_flatten : ∀ (fuel : Nat) (cs : List Char),
    (splitCaptureL fuel cs).flatten = cs
  | 0, cs => by simp [splitCaptureL]
  | fuel+1, cs => by
    simp only [splitCaptureL]
    cases h : findPlaceholder (cs.length + 1) cs 0 with
    | none => simp
    | some r =>
      obtain ⟨start, len, v⟩ := r
      simp only [List.flatten_cons, splitCaptureL_flatten fuel]
      rw [← List.drop_drop len start cs, List.take_append_drop len (cs.drop start),
        List.take_append_drop start cs]

/-- Claim C1 (code bug): the claim — and the source's own comment "Leave the
original block in place if parsing fails" — say a complete fenced region
whose interior fails to parse (or lacks a uid/data member) is left untouched
as literal text. Evaluating the extractor at such an input shows otherwise:
the leftover region still contains the opening tag, so the incomplete-block
truncation removes the region and everything after it ("Hello ```uicp\nnot
json```\nWorld" yields no blocks and the text "Hello"). -/
theorem extract_malformed_region_removed :
    extractUICPBlocks "Hello ```uicp\nnot json```\nWorld" = ([], "Hello") := rfl

/-- Claim C2 (code bug): the claim says no returned text segment ever
contains raw partially-streamed block syntax. But when no block is accepted,
both parser variants return the ORIGINAL content via the early
`blocks.length === 0` return, bypassing the extractor's truncation: on
"Hi ```uicp\n..." (an unterminated opening marker) the single returned text
segment is the raw input, which does contain the opening marker. -/
theorem parse_partial_marker_shown :
    parseUICPContentSync "Hi ```uicp\n\x7b\"uid\":" emptyDefs []
      = [.text "Hi ```uicp\n\x7b\"uid\":" "text-0"]
    ∧ parseUICPContent "Hi ```uicp\n\x7b\"uid\":" emptyDefs []
      = [.text "Hi ```uicp\n\x7b\"uid\":" "text-0"]
    ∧ (findSub "Hi ```uicp\n\x7b\"uid\":".toList uicpOpenL).isSome = true :=
  ⟨rfl, rfl, rfl⟩

/-- Claim C7 (code bug): the claim says truncation discards from the start of
the opening marker that has NO matching closing marker. But the code
truncates at the FIRST remaining occurrence of the opening tag, which can be
a malformed complete region left as literal text: on
"A ```uicp\nbad``` B ```uicp\n..." the unterminated marker starts after
" B ", yet extraction truncates all the way back to "A" (the claim's cut
point would have kept "A ```uicp\nbad``` B"). -/
theorem extract_truncates_at_malformed_marker :
    extractUICPBlocks "A ```uicp\nbad``` B ```uicp\n\x7b" = ([], "A")
    ∧ "A" ≠ "A ```uicp\nbad``` B" :=
  ⟨rfl, by decide⟩

/-- Claim C3 counterexample: a literal span of the source text matching the
placeholder pattern does NOT reappear in the output at its position: with
one accepted block, the literal span "__UICP_BLOCK_1__" is parsed as a
placeholder whose index is out of range and is dropped entirely — the output
contains only "A ", " B " and the block's component segment. -/
theorem parse_literal_placeholder_dropped :
    parseUICPContentSync
        "A __UICP_BLOCK_1__ B ```uicp\n\x7b\"uid\":\"X\",\"data\":\x7b\x7d\x7d```"
        emptyDefs []
      = [.text "A " "text-0", .text " B " "text-2",
         .component (.errorBox "component-0" ["Unknown component UID: X"]) "component-0"] := rfl

/-- Claim C8 counterexample: the claim says acceptance depends only on the
PRESENCE of the `uid` and `data` members, so a payload with an empty-string
uid would be promoted to a placeholder. The code instead tests JS truthiness
(`parsed.uid && parsed.data`): the payload with `uid:""` is NOT accepted —
no block is produced (and the leftover region is then truncated away). -/
theorem extract_empty_uid_not_promoted :
    extractUICPBlocks "```uicp\n\x7b\"uid\":\"\",\"data\":\x7b\x7d\x7d```" = ([], "") := rfl

/-- Claim C4: `validateUICPBlock` returns exactly one unknown-identifier
error and stops when the uid matches no component; otherwise its error list
is precisely the concatenation of all missing-required-field errors (in
declared-input order) and all enum/type errors over the data entries (in
entry order, with undeclared fields contributing nothing and null/undefined
values exempt from the type check, per `errsOfDataEntry`); and `valid` holds
exactly when the error list is empty. -/
theorem validateUICPBlock_spec (block : UICPBlock) (defs : Definitions) :
    (findByUid defs.components block.uid = none →
      validateUICPBlock block defs =
        { valid := false, errors := ["Unknown component UID: " ++ jsToString block.uid] })
    ∧ (∀ c, findByUid defs.components block.uid = some c →
        (validateUICPBlock block defs).errors =
          missingFieldErrors c block.data ++ dataFieldErrors c block.data)
    ∧ ((validateUICPBlock block defs).valid = true ↔
        (validateUICPBlock block defs).errors = []) := by
  refine ⟨fun h => ?_, fun c h => ?_, ?_⟩
  · simp [validateUICPBlock, h]
  · simp only [validateUICPBlock, h]
    rw [foldl_append_eq_flatMap, foldl_append_eq_flatMap, List.nil_append]
    rfl
  · cases h : findByUid defs.components block.uid with
    | none => simp [validateUICPBlock, h]
    | some c =>
      simp only [validateUICPBlock, h]
      exact List.isEmpty_iff

/-- Witness for C4 at the spec's running example: validating
`{uid:"Card", data:{}}` against a document whose `Card` requires `title`
yields exactly the missing-`title` error, matching the declarative error
decomposition. -/
theorem validateUICPBlock_spec_witness :
    (validateUICPBlock { uid := .jstr "Card", data := .jobj [] } cardDefs).errors
      = missingFieldErrors cardComponent (.jobj []) ++ dataFieldErrors cardComponent (.jobj [])
    ∧ (validateUICPBlock { uid := .jstr "Card", data := .jobj [] } cardDefs).errors
      = ["Missing required field: title"]
    ∧ (validateUICPBlock { uid := .jstr "Card", data := .jobj [] } cardDefs).valid = false :=
  ⟨(validateUICPBlock_spec { uid := .jstr "Card", data := .jobj [] } cardDefs).2.1
      cardComponent rfl,
   rfl, rfl⟩

/-- Claim C5: when a definitions document contains duplicate uids, every
consumer that resolves a uid against the components sequence — the
validator's lookup, the orchestrator's renderer pre-load lookup, and
`createUIComponent`'s lookup — deterministically resolves to the first
occurrence: with components `pre ++ c1 :: suf` where nothing in `pre` has
uid `u` and `c1` does, both lookup forms return `c1`, and the validator,
the pre-load pass, and `createUIComponent` behave exactly as they would on a
document containing only `c1`. -/
theorem uid_resolution_first_occurrence
    (pre suf : List ComponentDefinition) (c1 : ComponentDefinition) (u : String)
    (hpre : ∀ c ∈ pre, c.uid ≠ u) (hc1 : c1.uid = u)
    (ver : String) (d : JsValue) (reg : Registry)
    (uri : String) (pdata : List (String × JsValue)) (ttl now : Int)
    (loaded : Definitions) (httl : 0 ≤ ttl) :
    findByUid (pre ++ c1 :: suf) (.jstr u) = some c1
    ∧ findByUidStr (pre ++ c1 :: suf) u = some c1
    ∧ validateUICPBlock { uid := .jstr u, data := d }
        { version := ver, components := pre ++ c1 :: suf }
      = validateUICPBlock { uid := .jstr u, data := d }
        { version := ver, components := [c1] }
    ∧ preloadRegistry [{ uid := .jstr u, data := d }]
        { version := ver, components := pre ++ c1 :: suf } reg
      = preloadRegistry [{ uid := .jstr u, data := d }]
        { version := ver, components := [c1] } reg
    ∧ (createUIComponent uri { uid := u, data := pdata } ttl
        [(uri, { version := ver, components := pre ++ c1 :: suf }, now)] now loaded).1
      = (createUIComponent uri { uid := u, data := pdata } ttl
        [(uri, { version := ver, components := [c1] }, now)] now loaded).1 := by
  have hfind : findByUid (pre ++ c1 :: suf) (.jstr u) = some c1 := by
    refine find?_first _ pre c1 (fun x hx => ?_) ?_ suf
    · simp [strictEqStrJs, beq_eq_false_iff_ne, hpre x hx]
    · simp [strictEqStrJs, hc1]
  have hfind1 : findByUid [c1] (.jstr u) = some c1 := by
    simp [findByUid, List.find?, strictEqStrJs, hc1]
  have hfindS : findByUidStr (pre ++ c1 :: suf) u = some c1 := by
    refine find?_first _ pre c1 (fun x hx => ?_) ?_ suf
    · simp [beq_eq_false_iff_ne, hpre x hx]
    · simp [hc1]
  have hfindS1 : findByUidStr [c1] u = some c1 := by
    simp [findByUidStr, List.find?, hc1]
  have hget : ∀ dx : Definitions,
      getCached uri ttl [(uri, dx, now)] now = (some dx, [(uri, dx, now)]) := by
    intro dx
    have hc : ¬(now - now > ttl) := by omega
    simp [getCached, lookupEntry, hc]
    omega
  refine ⟨hfind, hfindS, ?_, ?_, ?_⟩
  · simp only [validateUICPBlock, hfind, hfind1]
  · simp only [preloadRegistry, List.foldl_cons, List.foldl_nil, hfind, hfind1]
  · simp only [createUIComponent, hget, Option.getD_some, hfindS, hfindS1]
    split_ifs <;> rfl

/-- Witness for C5 at a concrete duplicated document: in
`[Other, Card, CardAlt]` (both `Card` entries share uid "Card"), all
consumers resolve "Card" to the first `Card` occurrence. -/
theorem uid_resolution_first_occurrence_witness :
    findByUid dupDefs.components (.jstr "Card") = some cardComponent
    ∧ findByUidStr dupDefs.components "Card" = some cardComponent
    ∧ validateUICPBlock { uid := .jstr "Card", data := .jobj [] }
        { version := "1.0.0", components := [otherComponent] ++ cardComponent :: [cardAlt] }
      = validateUICPBlock { uid := .jstr "Card", data := .jobj [] }
        { version := "1.0.0", components := [cardComponent] } := by
  have h := uid_resolution_first_occurrence [otherComponent] [cardAlt] cardComponent "Card"
    (by intro c hc; simp only [List.mem_singleton] at hc; subst hc; decide)
    rfl "1.0.0" (.jobj []) [] "defs.json" [] 1000 0 emptyDefs (by decide)
  exact ⟨h.1, h.2.1, h.2.2.1⟩

/-- Claim C6: both definitions caches are TTL-gated by the clock difference
against the stored timestamp. For `loadDefinitionsWithCache`: a hit strictly
younger than `ttl` is returned with no load and an unchanged cache; a stale
or absent entry triggers a load whose result overwrites the entry with a
fresh timestamp. For the tools cache: a hit younger than `ttl` is returned
by `getCached` without loading, a stale hit yields null, and a consumer
(`createUIComponent`) then performs a fresh load whose `setCached` leaves the
entry `(loaded, now)`. -/
theorem definitions_cache_ttl
    (s : String) (d loaded : Definitions) (ts now ttl : Int) (cache : DefsCache)
    (p : CreateUIComponentParams) :
    (lookupEntry cache s = some (d, ts) → now - ts < ttl →
      loadDefinitionsWithCache (.uri s) ttl cache now loaded = (d, cache, false))
    ∧ (lookupEntry cache s = some (d, ts) → ¬(now - ts < ttl) →
      loadDefinitionsWithCache (.uri s) ttl cache now loaded
        = (loaded, setEntry cache s loaded now, true)
      ∧ lookupEntry (setEntry cache s loaded now) s = some (loaded, now))
    ∧ (lookupEntry cache s = none →
      loadDefinitionsWithCache (.uri s) ttl cache now loaded
        = (loaded, setEntry cache s loaded now, true))
    ∧ (lookupEntry cache s = some (d, ts) → now - ts < ttl →
      getCached s ttl cache now = (some d, cache))
    ∧ (lookupEntry cache s = some (d, ts) → now - ts > ttl →
      (getCached s ttl cache now).1 = none
      ∧ lookupEntry (createUIComponent s p ttl cache now loaded).2 s = some (loaded, now))
    ∧ (lookupEntry cache s = none → getCached s ttl cache now = (none, cache)) := by
  refine ⟨fun h hf => ?_, fun h hs => ?_, fun h => ?_, fun h hf => ?_, fun h hs => ?_,
    fun h => ?_⟩
  · simp [loadDefinitionsWithCache, h, hf]
  · exact ⟨by simp [loadDefinitionsWithCache, h, hs],
      lookupEntry_setEntry_self cache s loaded now⟩
  · simp [loadDefinitionsWithCache, h]
  · have hx : ¬(now - ts > ttl) := by omega
    simp [getCached, h, hx]
  · have hg : getCached s ttl cache now = (none, eraseEntry cache s) := by
      simp [getCached, h, hs]
    refine ⟨by simp [hg], ?_⟩
    simp only [createUIComponent, hg]
    rcases hfind : findByUidStr loaded.components p.uid with _ | c
    · simp [hfind, setCached, lookupEntry_setEntry_self]
    · simp only [Option.getD_none, hfind]
      split_ifs <;> simp [setCached, lookupEntry_setEntry_self]
  · simp [getCached, h]

/-- Witness for C6 at the spec's concrete scenario (ttl 1000ms, entry stored
at t=0): a read at t=1500 misses (stale) and a fresh load overwrites the
entry; a read at t=500 returns the cached value without loading. -/
theorem definitions_cache_ttl_witness :
    loadDefinitionsWithCache (.uri "defs") 1000 [("defs", cardDefs, 0)] 1500 emptyDefs
      = (emptyDefs, setEntry [("defs", cardDefs, 0)] "defs" emptyDefs 1500, true)
    ∧ (getCached "defs" 1000 [("defs", cardDefs, 0)] 1500).1 = none
    ∧ loadDefinitionsWithCache (.uri "defs") 1000 [("defs", cardDefs, 0)] 500 emptyDefs
      = (cardDefs, [("defs", cardDefs, 0)], false)
    ∧ getCached "defs" 1000 [("defs", cardDefs, 0)] 500
      = (some cardDefs, [("defs", cardDefs, 0)]) := by
  have h1500 := definitions_cache_ttl "defs" cardDefs emptyDefs 0 1500 1000
    [("defs", cardDefs, 0)] { uid := "Card", data := [] }
  have h500 := definitions_cache_ttl "defs" cardDefs emptyDefs 0 500 1000
    [("defs", cardDefs, 0)] { uid := "Card", data := [] }
  exact ⟨(h1500.2.1 rfl (by omega)).1,
    (h1500.2.2.2.2.1 rfl (by omega)).1,
    h500.1 rfl (by omega),
    h500.2.2.2.1 rfl (by omega)⟩

/-- Claim C10: reading the tools cache with `getCached` on an entry whose age
exceeds `ttl` deletes that entry as a side effect of the read, leaves every
other key's entry unchanged, and a subsequent read of the same key under any
larger `ttl2` also yields null — even though, had the first read not
occurred, the entry would still have been returned under `ttl2` whenever the
age does not exceed it. -/
theorem getCached_stale_read_deletes
    (cache : DefsCache) (uri : String) (d : Definitions) (ts ttl ttl2 now : Int)
    (hent : lookupEntry cache uri = some (d, ts)) (hstale : now - ts > ttl) :
    (getCached uri ttl cache now).1 = none
    ∧ (getCached uri ttl cache now).2 = eraseEntry cache uri
    ∧ (∀ u, u ≠ uri → lookupEntry (eraseEntry cache uri) u = lookupEntry cache u)
    ∧ (getCached uri ttl2 (eraseEntry cache uri) now).1 = none
    ∧ (now - ts ≤ ttl2 → (getCached uri ttl2 cache now).1 = some d) := by
  refine ⟨by simp [getCached, hent, hstale], by simp [getCached, hent, hstale],
    fun u hu => lookupEntry_eraseEntry_ne cache uri u hu, ?_, fun hf => ?_⟩
  · simp [getCached, lookupEntry_eraseEntry_self]
  · have hx : ¬(now - ts > ttl2) := by omega
    simp [getCached, hent, hx]

/-- Witness for C10: cache `[("a", cardDefs, 0)]`, first read at t=1500 with
ttl=1000 deletes the entry and returns null; the immediate follow-up with
ttl2=2000 also returns null, although a direct read with ttl2=2000 would
have returned the cached document. -/
theorem getCached_stale_read_deletes_witness :
    (getCached "a" 1000 [("a", cardDefs, 0)] 1500).1 = none
    ∧ (getCached "a" 1000 [("a", cardDefs, 0)] 1500).2 = eraseEntry [("a", cardDefs, 0)] "a"
    ∧ (getCached "a" 2000 (eraseEntry [("a", cardDefs, 0)] "a") 1500).1 = none
    ∧ (getCached "a" 2000 [("a", cardDefs, 0)] 1500).1 = some cardDefs := by
  have h := getCached_stale_read_deletes [("a", cardDefs, 0)] "a" cardDefs 0 1000 2000 1500
    rfl (by omega)
  exact ⟨h.1, h.2.1, h.2.2.2.1, h.2.2.2.2 (by omega)⟩

/-- Claim C9: when every renderer needed by the content's blocks is already
registered (so the asynchronous variant's pre-load pass performs no dynamic
loads) and its definitions source resolves to the same definitions document
the synchronous variant is given, both variants produce identical segment
sequences — same kinds, keys, order and rendered artifacts. -/
theorem parseUICPContent_eq_sync (content : String) (defs : Definitions)
    (registry : Registry)
    (h : ∀ b ∈ (extractUICPBlocks content).1, getComponent registry b.uid = true) :
    parseUICPContent content defs registry = parseUICPContentSync content defs registry := by
  have h' : ∀ b ∈ (extractUICPBlocksL content.toList).1,
      getComponent registry b.uid = true := h
  simp only [parseUICPContent, parseUICPContentSync]
  rw [preloadRegistry_of_registered (extractUICPBlocksL content.toList).1 defs registry h']

/-- Witness for C9: a content with one valid `Card` block, the running
example definitions, and a registry in which `Card` is registered — the
asynchronous and synchronous variants agree. -/
theorem parseUICPContent_eq_sync_witness :
    (∀ b ∈ (extractUICPBlocks
        "Hi\n```uicp\n\x7b\"uid\":\"Card\",\"data\":\x7b\"title\":\"t\"\x7d\x7d```\nbye").1,
      getComponent ["Card"] b.uid = true)
    ∧ parseUICPContent
        "Hi\n```uicp\n\x7b\"uid\":\"Card\",\"data\":\x7b\"title\":\"t\"\x7d\x7d```\nbye"
        cardDefs ["Card"]
      = parseUICPContentSync
        "Hi\n```uicp\n\x7b\"uid\":\"Card\",\"data\":\x7b\"title\":\"t\"\x7d\x7d```\nbye"
        cardDefs ["Card"] := by
  refine ⟨?_, parseUICPContent_eq_sync _ cardDefs ["Card"] ?_⟩ <;>
    · intro b hb
      have hb' : b = ⟨JsValue.jstr "Card", JsValue.jobj [("title", JsValue.jstr "t")]⟩ := by
        rw [show (extractUICPBlocks
          "Hi\n```uicp\n\x7b\"uid\":\"Card\",\"data\":\x7b\"title\":\"t\"\x7d\x7d```\nbye").1
          = [⟨JsValue.jstr "Card", JsValue.jobj [("title", JsValue.jstr "t")]⟩] from rfl] at hb
        simpa using hb
      rw [hb']
      rfl

/-- Claim C3 (amended): with at least one accepted block, the synchronous
parser's output is exactly the in-order concatenation, over the indexed
parts of the placeholder-split substituted text, of each part's segments —
non-placeholder spans become text segments when nonempty after trimming,
placeholder-pattern spans (whether produced by extraction or literal in the
source) render block `n`'s component in place when `n` is in range and
contribute nothing when out of range — and the split itself loses no text:
its parts concatenate back to the substituted text. -/
theorem parseUICPContentSync_reassembly_order
    (content : String) (defs : Definitions) (reg : Registry)
    (h : (extractUICPBlocks content).1.length ≠ 0) :
    parseUICPContentSync content defs reg
      = ((splitCaptureL ((extractUICPBlocksL content.toList).2.length + 1)
            (extractUICPBlocksL content.toList).2).enum).flatMap
          (fun q => segmentsOfPart (extractUICPBlocksL content.toList).1 defs reg q.1 q.2)
    ∧ ∀ cs : List Char, (splitCaptureL (cs.length + 1) cs).flatten = cs := by
  constructor
  · have hb : ((extractUICPBlocksL content.toList).1.length == 0) = false :=
      beq_eq_false_iff_ne.mpr h
    simp only [parseUICPContentSync, hb, Bool.false_eq_true, if_false, reassemble]
    rw [foldl_append_eq_flatMap]
    exact List.nil_append _
  · intro cs
    exact splitCaptureL_flatten _ cs

/-- Witness for C3 at a concrete content with one accepted block: the parser
output equals the declarative in-place reassembly of the split parts. -/
theorem parseUICPContentSync_reassembly_order_witness :
    ((extractUICPBlocks
        "Hey ```uicp\n\x7b\"uid\":\"Card\",\"data\":\x7b\"title\":\"hi\"\x7d\x7d``` there").1.length ≠ 0)
    ∧ parseUICPContentSync
        "Hey ```uicp\n\x7b\"uid\":\"Card\",\"data\":\x7b\"title\":\"hi\"\x7d\x7d``` there"
        cardDefs ["Card"]
      = ((splitCaptureL ((extractUICPBlocksL
            "Hey ```uicp\n\x7b\"uid\":\"Card\",\"data\":\x7b\"title\":\"hi\"\x7d\x7d``` there".toList).2.length + 1)
            (extractUICPBlocksL
            "Hey ```uicp\n\x7b\"uid\":\"Card\",\"data\":\x7b\"title\":\"hi\"\x7d\x7d``` there".toList).2).enum).flatMap
          (fun q => segmentsOfPart (extractUICPBlocksL
            "Hey ```uicp\n\x7b\"uid\":\"Card\",\"data\":\x7b\"title\":\"hi\"\x7d\x7d``` there".toList).1
            cardDefs ["Card"] q.1 q.2) :=
  ⟨by decide,
   (parseUICPContentSync_reassembly_order
      "Hey ```uicp\n\x7b\"uid\":\"Card\",\"data\":\x7b\"title\":\"hi\"\x7d\x7d``` there"
      cardDefs ["Card"] (by decide)).1⟩

/-- One-step unfolding of the regex scan (definitional). -/
theorem findUicpFrom_succ (fuel : Nat) (cs : List Char) (pos : Nat) :
    findUicpFrom (fuel + 1) cs pos =
      match findSub (cs.drop pos) uicpOpenL with
      | none => none
      | some j =>
        match tryCompleteAt cs (pos + j) with
        | some r => some r
        | none => findUicpFrom fuel cs (pos + j + 1) := rfl

/-- One-step unfolding of the extraction loop (definitional). -/
theorem extractLoop_succ (fuel : Nat) (cs : List Char) (pos : Nat)
    (blocks : List UICPBlock) (acc : List Char) :
    extractLoop (fuel + 1) cs pos blocks acc =
      match findUicpFrom (cs.length + 1) cs pos with
      | none => (blocks, acc)
      | some (start, len, inner) =>
        match jsonParseL (trimBoth inner) with
        | none => extractLoop fuel cs (start + len) blocks acc
        | some parsed =>
          if truthyOpt (getMember parsed "uid") && truthyOpt (getMember parsed "data") then
            extractLoop fuel cs (start + len)
              (blocks ++ [blockOfJson parsed])
              (replaceFirstL acc ((cs.drop start).take len) (mkPlaceholder blocks.length))
          else extractLoop fuel cs (start + len) blocks acc := rfl

/-- Claim C8 (amended): for a single complete fenced region whose payload
contains no backtick and does not begin with whitespace, the payload is
accepted as a block exactly when its trimmed interior parses as JSON and
both the `uid` and `data` members are TRUTHY (not merely present): a truthy
pair yields the block and the placeholder text, anything else (parse
failure, missing member, or a falsy member such as an empty-string uid)
yields no block — so acceptance does depend on the values, not only on
presence. -/
theorem extract_single_region_acceptance (p : String)
    (hp : btick ∉ p.toList)
    (hw : p.toList.head?.all (fun c => !isJsWs c) = true) :
    extractUICPBlocks ("```uicp\n" ++ p ++ "```")
      = (match jsonParseL (trimBoth p.toList) with
         | some v =>
           if truthyOpt (getMember v "uid") && truthyOpt (getMember v "data") then
             ([blockOfJson v], "__UICP_BLOCK_0__")
           else ([], "")
         | none => ([], "")) := by
  have hcs : ("```uicp\n" ++ p ++ "```").toList
      = "```uicp\n".toList ++ (p.toList ++ closeFenceL) := rfl
  set pl := p.toList with hpl
  set cs : List Char := "```uicp\n".toList ++ (pl ++ closeFenceL) with hcsdef
  have hlen : cs.length = pl.length + 11 := by
    simp [hcsdef, List.length_append, closeFenceL]
  -- first match of the regex: at position 0, full region, body = pl
  have hfind0 : findSub cs uicpOpenL = some 0 := findSub_of_pref rfl
  have htw : (pl ++ closeFenceL).takeWhile isJsWs = [] := by
    cases hc : pl with
    | nil => rfl
    | cons c t =>
      have hcw : isJsWs c = false := by
        have := hw
        rw [hc] at this
        simpa using this
      simp [List.takeWhile_cons, hcw]
  have hclose : findSub (pl ++ closeFenceL) closeFenceL = some pl.length := by
    have hcl : closeFenceL = btick :: [btick, btick] := by decide
    rw [hcl, findSub_append_head_notMem btick [btick, btick] pl (btick :: [btick, btick]) hp]
    simp [findSub_of_pref, isPrefixOfSelf]
  have htry : tryCompleteAt cs 0 = some (0, 7 + 0 + 1 + pl.length + 3, pl) := by
    show (match lastIdxOf ((cs.drop (0 + 7)).takeWhile isJsWs) '\n' with
      | none => none
      | some k =>
        match findSub (cs.drop (0 + 7 + k + 1)) closeFenceL with
        | none => none
        | some m => some (0, 7 + k + 1 + m + 3, (cs.drop (0 + 7 + k + 1)).take m)) = _
    have hdrop7 : cs.drop (0 + 7) = '\n' :: (pl ++ closeFenceL) := rfl
    have hdrop8 : cs.drop (0 + 7 + 0 + 1) = pl ++ closeFenceL := rfl
    rw [hdrop7]
    have hrun : ('\n' :: (pl ++ closeFenceL)).takeWhile isJsWs = ['\n'] := by
      simp [List.takeWhile_cons, htw, isJsWs]
    rw [hrun]
    have hlast : lastIdxOf ['\n'] '\n' = some 0 := rfl
    rw [hlast]
    simp only [hdrop8, hclose, List.take_left]
  have hfu : findUicpFrom (cs.length + 1) cs 0
      = some (0, 7 + 0 + 1 + pl.length + 3, pl) := by
    rw [findUicpFrom_succ, List.drop_zero, hfind0]
    show (match tryCompleteAt cs (0 + 0) with
      | some r => some r
      | none => findUicpFrom cs.length cs (0 + 0 + 1)) = _
    rw [show (0 : Nat) + 0 = 0 from rfl, htry]
  -- the second loop iteration finds nothing: the scan position is past the end
  have hloop2 : ∀ (bs : List UICPBlock) (acc : List Char),
      extractLoop cs.length cs (0 + (7 + 0 + 1 + pl.length + 3)) bs acc = (bs, acc) := by
    intro bs acc
    have hfu2 : findUicpFrom (cs.length + 1) cs (0 + (7 + 0 + 1 + pl.length + 3)) = none := by
      rw [findUicpFrom_succ]
      have hdrop : cs.drop (0 + (7 + 0 + 1 + pl.length + 3)) = [] := by
        have he : 0 + (7 + 0 + 1 + pl.length + 3) = cs.length := by omega
        rw [he, List.drop_length]
      rw [hdrop]
      rfl
    have hsucc : cs.length = (pl.length + 10) + 1 := by omega
    rw [hsucc, extractLoop_succ, hfu2]
  have hrep : replaceFirstL cs (cs.take (7 + 0 + 1 + pl.length + 3)) (mkPlaceholder 0)
      = mkPlaceholder 0 := by
    have hmat : cs.take (7 + 0 + 1 + pl.length + 3) = cs := by
      rw [show 7 + 0 + 1 + pl.length + 3 = cs.length from by omega]
      exact List.take_length cs
    rw [hmat]
    show (match findSub cs cs with
      | none => cs
      | some i => cs.take i ++ mkPlaceholder 0 ++ cs.drop (i + cs.length)) = _
    rw [findSub_of_pref (isPrefixOfSelf cs)]
    simp [List.drop_length]
  have htrunc0 : truncateIncomplete cs = [] := by
    show (match findSub cs uicpOpenL with
      | some i => trimEndL (cs.take i)
      | none => cs) = []
    rw [hfind0]
    rfl
  have htrunc1 : truncateIncomplete (mkPlaceholder 0) = mkPlaceholder 0 := rfl
  have hresult : extractLoop (cs.length + 1) cs 0 [] cs
      = (match jsonParseL (trimBoth pl) with
         | none => ([], cs)
         | some parsed =>
           if truthyOpt (getMember parsed "uid") && truthyOpt (getMember parsed "data") then
             ([blockOfJson parsed], mkPlaceholder 0)
           else ([], cs)) := by
    rw [extractLoop_succ, hfu]
    show (match jsonParseL (trimBoth pl) with
      | none => extractLoop cs.length cs (0 + (7 + 0 + 1 + pl.length + 3)) [] cs
      | some parsed =>
        if truthyOpt (getMember parsed "uid") && truthyOpt (getMember parsed "data") then
          extractLoop cs.length cs (0 + (7 + 0 + 1 + pl.length + 3)) [blockOfJson parsed]
            (replaceFirstL cs (cs.take (7 + 0 + 1 + pl.length + 3)) (mkPlaceholder 0))
        else extractLoop cs.length cs (0 + (7 + 0 + 1 + pl.length + 3)) [] cs) = _
    cases hj : jsonParseL (trimBoth pl) with
    | none => exact hloop2 [] cs
    | some v =>
      cases htr : truthyOpt (getMember v "uid") && truthyOpt (getMember v "data") with
      | false =>
        simp only [htr, Bool.false_eq_true, if_false]
        exact hloop2 [] cs
      | true =>
        simp only [htr, if_true]
        rw [hrep]
        exact hloop2 [blockOfJson v] (mkPlaceholder 0)
  have hfinal : extractUICPBlocksL cs
      = (match jsonParseL (trimBoth pl) with
         | none => ([], [])
         | some v =>
           if truthyOpt (getMember v "uid") && truthyOpt (getMember v "data") then
             ([blockOfJson v], mkPlaceholder 0)
           else ([], [])) := by
    simp only [extractUICPBlocksL]
    rw [hresult]
    cases hj : jsonParseL (trimBoth pl) with
    | none => simp [htrunc0]
    | some v =>
      cases htr : truthyOpt (getMember v "uid") && truthyOpt (getMember v "data") with
      | false => simp [htr, htrunc0]
      | true => simp [htr, htrunc1]
  show (let r := extractUICPBlocksL (("```uicp\n" ++ p ++ "```").toList); (r.1, String.mk r.2)) = _
  rw [hcs, hfinal]
  cases hj : jsonParseL (trimBoth pl) with
  | none => rfl
  | some v =>
    cases htr : truthyOpt (getMember v "uid") && truthyOpt (getMember v "data") with
    | false => simp [htr]
    | true =>
      simp only [htr, if_true]
      rfl

/-- Witness for C8: the payload with a truthy uid `"Card"` and object `data`
is accepted and promoted to a placeholder. -/
theorem extract_single_region_acceptance_witness :
    (btick ∉ "\x7b\"uid\":\"Card\",\"data\":\x7b\x7d\x7d".toList)
    ∧ extractUICPBlocks ("```uicp\n" ++ "\x7b\"uid\":\"Card\",\"data\":\x7b\x7d\x7d" ++ "```")
      = ([⟨JsValue.jstr "Card", JsValue.jobj []⟩], "__UICP_BLOCK_0__") :=
  ⟨by decide, by
    have h := extract_single_region_acceptance "\x7b\"uid\":\"Card\",\"data\":\x7b\x7d\x7d"
      (by decide) (by decide)
    exact h.trans rfl⟩
